import Mathlib

/-!
Verification of the Ruby debug adapter (`src/main.ts`).

The adapter's strings are modelled as `List Char` (`Str`).  JavaScript
string primitives used by the source (`trim`, `indexOf`, regex tests
anchored with `^`/`$`) are translated to executable functions on `Str`.
The XML `DOMParser` is a pure function of the reassembled text, so
"resolving a promise with the parsed document" is modelled as recording
the reassembled text itself; equality of recorded texts is equivalent to
equality of parsed documents.
-/

namespace RubyAdapter

/-- Character strings, the model of JavaScript strings. -/
abbrev Str := List Char

/-- Whitespace recognised by `String.prototype.trim` (the characters that
occur in this code base's inputs). -/
def wsChar (c : Char) : Bool := c == ' ' || c == '\t' || c == '\n' || c == '\r'

/-- JavaScript `s.trim()`. -/
def trim (s : Str) : Str := ((s.dropWhile wsChar).reverse.dropWhile wsChar).reverse

/-- JavaScript `s.indexOf(pat) >= 0`: some suffix of `s` starts with `pat`. -/
def containsSub (pat : Str) : Str → Bool
  | [] => pat.isPrefixOf ([] : Str)
  | c :: rest => pat.isPrefixOf (c :: rest) || containsSub pat rest

/-- JavaScript `s.startsWith(p)` / `s.indexOf(p) == 0`. -/
def startsWithS (p s : Str) : Bool := p.isPrefixOf s

/-- JavaScript regex `/p$/.test(s)` for a literal `p`. -/
def endsWithS (p s : Str) : Bool := p.isSuffixOf s

/-!
## Breakpoint verification (`setBreakPointsRequest`, main.ts lines 213-254)

The adapter sets `setDebuggerLinesStartAt1(true)` and the client protocol
defaults to 1-based lines, so `convertClientLineToDebugger` and
`convertDebuggerLineToClient` are the identity; they are inlined below.
-/

/-- One loop iteration of `setBreakPointsRequest` (lines 225-240): returns the
adjusted line and the verified flag.  `none` models the JavaScript
`TypeError` thrown by `lines[-1].trim()` when the requested line is `0`
yet passes the `l < lines.length` bounds check. -/
def processOne (lines : List Str) (l : Nat) : Option (Nat × Bool) :=
  if l < lines.length then
    if l = 0 then none
    else
      let line := trim (lines.getD (l - 1) [])
      -- if a line is empty or starts with '+' we move the breakpoint down
      let l1 := if line.length = 0 || startsWithS ['+'] line then l + 1 else l
      -- if a line starts with '-' we move the breakpoint up
      let l2 := if startsWithS ['-'] line then l1 - 1 else l1
      -- not verified when the line contains the word 'lazy'
      let verified := !containsSub "lazy".data line
      some (l2, verified)
  else some (l, false)

/-- A `DebugProtocol.Breakpoint` as built at line 241-242. -/
structure Bp where
  id : Nat
  line : Nat
  verified : Bool
deriving DecidableEq, Repr

/-- The socket command written at lines 243-244: the file name is the
hardcoded literal `test.rb`. -/
def breakCmd (l : Nat) : Str := "break test.rb:".data ++ (Nat.repr l).data ++ "\n".data

/-- The verification loop of `setBreakPointsRequest` (lines 224-246),
threading the `_breakpointId` counter and collecting the breakpoints and
the socket commands in order. -/
def bpLoop (lines : List Str) (cls : List Nat) (id : Nat) :
    Option (List Bp × Nat × List Str) :=
  match cls with
  | [] => some ([], id, [])
  | l :: rest =>
    match processOne lines l with
    | none => none
    | some (al, v) =>
      match bpLoop lines rest (id + 1) with
      | none => none
      | some (bps, id', cmds) => some (⟨id, al, v⟩ :: bps, id', breakCmd al :: cmds)

/-- The adapter state touched by `setBreakPointsRequest`: the
`_breakpointId` counter and the `_breakPoints` collection keyed by
source path. -/
structure SessionState where
  breakpointId : Nat
  breakPoints : Str → List Bp

/-- Externally visible actions of `setBreakPointsRequest`, in order. -/
inductive SBEvent where
  | write (cmd : Str)
  | respond (bps : List Bp)
deriving DecidableEq, Repr

/-- `setBreakPointsRequest` (lines 213-254): runs the verification loop on
the file's lines, stores the new list under the request's path
(line 247), and emits the socket writes followed by the response. -/
def setBreakPointsRequest (st : SessionState) (path : Str) (fileLines : List Str)
    (clientLines : List Nat) : Option (SessionState × List SBEvent) :=
  match bpLoop fileLines clientLines st.breakpointId with
  | none => none
  | some (bps, id', cmds) =>
    some ({ breakpointId := id',
            breakPoints := fun q => if q = path then bps else st.breakPoints q },
          cmds.map SBEvent.write ++ [SBEvent.respond bps])

/-- The breakpoint list produced by a successful run of the loop. -/
def loopBps (o : Option (List Bp × Nat × List Str)) : List Bp :=
  match o with
  | some (bps, _, _) => bps
  | none => []

/-- Projection of a breakpoint to its externally meaningful data. -/
def lineVer (b : Bp) : Nat × Bool := (b.line, b.verified)

/-- The pure per-line specification of the loop: each requested line is
processed by `processOne` independently of the id counter and of the
other requested lines. -/
def bpSpec (lines : List Str) : List Nat → Option (List (Nat × Bool))
  | [] => some []
  | l :: rest =>
    match processOne lines l, bpSpec lines rest with
    | some p, some ps => some (p :: ps)
    | _, _ => none

/-- The source lines of the worked breakpoint example. -/
def c2Lines : List Str :=
  ["a".data, "".data, "+b".data, "-c".data, "lazy_var = 1".data]

/-- Claim C2: with cached source lines `["a", "", "+b", "-c", "lazy_var = 1"]`,
requesting breakpoints at lines 2,3,4,5 yields breakpoints at adjusted
lines 3,4,3,5, the first three verified and the last unverified, and the
matching `break` commands are written before the response. -/
theorem C2_concrete_adjustments :
    (setBreakPointsRequest ⟨1000, fun _ => []⟩ "p.rb".data c2Lines [2, 3, 4, 5]).map
        (fun r => r.2) =
      some [SBEvent.write (breakCmd 3), SBEvent.write (breakCmd 4),
            SBEvent.write (breakCmd 3), SBEvent.write (breakCmd 5),
            SBEvent.respond [⟨1000, 3, true⟩, ⟨1001, 4, true⟩,
                             ⟨1002, 3, true⟩, ⟨1003, 5, false⟩]] := by
  decide

/-- Claim C10: a requested line that is `≥ lines.length` fails the strict
`l < lines.length` bounds check and is returned unverified at the
unadjusted requested line; in particular the last line of the file
(line number `lines.length`) is never adjusted and never verified. -/
theorem C10_out_of_bounds (lines : List Str) (l : Nat) (h : lines.length ≤ l) :
    processOne lines l = some (l, false) := by
  simp [processOne, Nat.not_lt.2 h]

/-- Witness for C10 at the last line of a one-line file. -/
theorem C10_out_of_bounds_witness : processOne ["a".data] 1 = some (1, false) :=
  C10_out_of_bounds ["a".data] 1 (by decide)

/-- Source lines on which the claimed verification rule fails. -/
def c3Lines : List Str := ["+a".data, "lazy".data]

/-- Claim C3, counterexample: requesting line 1 of `["+a", "lazy"]` pushes
the breakpoint down to line 2 whose trimmed text contains `"lazy"`, yet
the code returns it verified: verification reads the original requested
line (`"+a"`), not the adjusted one. -/
theorem C3_counterexample :
    processOne c3Lines 1 = some (2, true) ∧
    containsSub "lazy".data (trim (c3Lines.getD (2 - 1) [])) = true := by
  decide

/-- Claim C3, amended: for an in-bounds requested line, the breakpoint is
verified iff the trimmed text of the ORIGINALLY REQUESTED line (before
the push-down/pull-up adjustment) does not contain `"lazy"`. -/
theorem C3_verified_iff_original_line_not_lazy (lines : List Str) (l : Nat)
    (h1 : 1 ≤ l) (h2 : l < lines.length) :
    (processOne lines l).map (fun p => p.2) =
      some (!containsSub "lazy".data (trim (lines.getD (l - 1) []))) := by
  have h0 : ¬ l = 0 := by omega
  simp [processOne, h2, h0]

/-- Witness for the amended C3 on its counterexample input. -/
theorem C3_verified_iff_original_line_not_lazy_witness :
    (processOne c3Lines 1).map (fun p => p.2) =
      some (!containsSub "lazy".data (trim (c3Lines.getD (1 - 1) []))) :=
  C3_verified_iff_original_line_not_lazy c3Lines 1 (by decide) (by decide)

/-- Claim C4 (code bug): for a request on path `foo.rb` the command written
to the backend is `break test.rb:1` — the file part is the hardcoded
literal `test.rb` (line 243) and does not identify the breakpoint's
owning source path.  The write still precedes the response. -/
theorem C4_hardcoded_file_eval :
    (setBreakPointsRequest ⟨1000, fun _ => []⟩ "foo.rb".data ["x".data, "y".data] [1]).map
        (fun r => r.2) =
      some [SBEvent.write ("break test.rb:1\n".data),
            SBEvent.respond [⟨1000, 1, true⟩]] ∧
    ("break test.rb:1\n".data : Str) ≠ "break foo.rb:1\n".data := by
  decide

/-!
## Stream reassembly (the socket `"data"` handler, main.ts lines 130-178)
-/

/-- An ECMAScript LineTerminator: the characters that `.` in a regex
without the `s` flag does not match (`\n`, `\r`, U+2028, U+2029). -/
def lineTerm (c : Char) : Bool :=
  c == '\n' || c == '\r' || c == '\u2028' || c == '\u2029'

/-- JavaScript regex test `/^<TAG .*?\/>$/` with `pre = "<TAG "`: the chunk
is exactly `pre ++ mid ++ "/>"` where `mid` contains no LineTerminator
(`.` matches any character except a LineTerminator, and the pattern is
anchored at both ends). -/
def matchSelfClosed (pre s : Str) : Bool :=
  startsWithS pre s && endsWithS ['/', '>'] s &&
  decide (pre.length + 2 ≤ s.length) &&
  ((s.drop pre.length).dropLast.dropLast.all (fun c => !lineTerm c))

/-- JavaScript regex test `/^<TAG .*?>$/` with `pre = "<TAG "`: the chunk is
exactly `pre ++ mid ++ ">"` where `mid` contains no LineTerminator. -/
def matchOpenTag (pre s : Str) : Bool :=
  startsWithS pre s && endsWithS ['>'] s &&
  decide (pre.length + 1 ≤ s.length) &&
  ((s.drop pre.length).dropLast.all (fun c => !lineTerm c))

def framesOpen : Str := "<frames>".data
def framesClose : Str := "</frames>".data
def variablesOpen : Str := "<variables>".data
def variablesClose : Str := "</variables>".data
def breakpointsOpen : Str := "<breakpoints>".data
def breakpointsClose : Str := "</breakpoints>".data
def breakpointPre : Str := "<breakpoint ".data
def suspendedPre : Str := "<suspended ".data
def framePre : Str := "<frame ".data
def variablePre : Str := "<variable ".data
def variableCloseTag : Str := "</variable>".data

/-- The state touched by the socket `"data"` handler: the reassembly
buffer, the texts handed to `stackFrameLoadedPromiseResolve` and to
`variableLoadedPromiseResolve` (in order), and the reasons of the
`StoppedEvent`s raised (in order). -/
structure ReState where
  buffer : Str
  frameDocs : List Str
  varDocs : List Str
  stoppedReasons : List String
deriving DecidableEq, Repr

/-- The socket `"data"` handler (lines 130-178), one chunk at a time.  A
chunk matching none of the tested patterns falls through every branch and
is dropped. -/
def onData (st : ReState) (chunk : Str) : ReState :=
  if matchSelfClosed breakpointPre chunk then
    { st with stoppedReasons := st.stoppedReasons ++ ["breakpoint"] }
  else if matchSelfClosed suspendedPre chunk then
    { st with stoppedReasons := st.stoppedReasons ++ ["step"] }
  else if (startsWithS framesOpen chunk && !endsWithS framesClose chunk)
       || (matchSelfClosed framePre chunk && !st.buffer.isEmpty)
       || (startsWithS variablesOpen chunk && !endsWithS variablesClose chunk)
       || (matchSelfClosed variablePre chunk && !st.buffer.isEmpty)
       || (startsWithS breakpointsOpen chunk && !endsWithS breakpointsClose chunk)
       || (matchSelfClosed breakpointPre chunk && !st.buffer.isEmpty) then
    { st with buffer := st.buffer ++ chunk }
  else if (matchOpenTag variablePre chunk && !endsWithS variablesClose chunk)
       || endsWithS variableCloseTag chunk then
    { st with buffer := st.buffer ++ chunk }
  else if endsWithS framesClose chunk || endsWithS variablesClose chunk
       || endsWithS breakpointsClose chunk then
    let full := st.buffer ++ chunk
    if endsWithS framesClose chunk then
      { st with buffer := [], frameDocs := st.frameDocs ++ [full] }
    else if endsWithS variablesClose chunk then
      { st with buffer := [], varDocs := st.varDocs ++ [full] }
    else
      { st with buffer := [] }
  else
    st

/-- Feeding a sequence of socket chunks to the handler, starting from the
state set up at launch (`this.buffer = ""`, line 115). -/
def consumeAll (chunks : List Str) : ReState :=
  chunks.foldl onData ⟨[], [], [], []⟩

/-- Claim C5: a chunk wholly matching `/^<breakpoint .*?\/>$/` or
`/^<suspended .*?\/>$/` is dispatched immediately as a `StoppedEvent`
(reason `breakpoint` resp. `step`) and leaves the reassembly buffer and
both document lists untouched, whatever the current state. -/
theorem C5_events_never_buffered (st : ReState) (c : Str)
    (h : matchSelfClosed breakpointPre c = true ∨ matchSelfClosed suspendedPre c = true) :
    onData st c =
      { st with stoppedReasons := st.stoppedReasons ++
          [if matchSelfClosed breakpointPre c then "breakpoint" else "step"] } := by
  rcases h with h | h
  · simp [onData, h]
  · by_cases hb : matchSelfClosed breakpointPre c <;> simp [onData, h, hb]

/-- Witness for C5: a `<breakpoint .../>` chunk arriving while the buffer
holds part of another document raises the event and is not buffered. -/
theorem C5_events_never_buffered_witness :
    onData ⟨"<frames>".data, [], [], []⟩ "<breakpoint x/>".data =
      ⟨"<frames>".data, [], [], ["breakpoint"]⟩ := by
  have h := C5_events_never_buffered ⟨"<frames>".data, [], [], []⟩
    "<breakpoint x/>".data (Or.inl (by decide))
  rw [h]; decide

/-- Claim C1, counterexample: the complete document `<frames></frames>`
split at a point inside the closing tag — chunks `"<frames></fra"` and
`"mes>"` — is lost: the first chunk is buffered, the second matches no
pattern and falls through, so the frames promise is never resolved
(the claim requires exactly one resolution with the full document). -/
theorem C1_counterexample :
    List.flatten ["<frames></fra".data, "mes>".data] = "<frames></frames>".data ∧
    (consumeAll ["<frames></fra".data, "mes>".data]).frameDocs = [] ∧
    ([] : List Str) ≠ ["<frames></frames>".data] := by
  decide

/-!
## Stack-frame translation (`stackTraceRequest`, main.ts lines 268-308)
-/

/-- A translated `StackFrame` as pushed at lines 291-298: loop index,
label (the trimmed cached source line), and the frame's line number
(`convertDebuggerLineToClient` is the identity here). -/
structure TFrame where
  idx : Nat
  label : Str
  line : Nat
deriving DecidableEq, Repr

/-- `path.basename` for the paths occurring here (no trailing slash): the
part after the last `/`. -/
def basename (p : Str) : Str := (p.reverse.takeWhile (fun c => c != '/')).reverse

/-- The backend-internal script test of line 286. -/
def internalScript (bn : Str) : Bool :=
  bn == "ruby-debug-ide.rb".data || bn == "rdebug-ide".data

/-- The frame loop of `stackTraceRequest` (lines 279-299) over the child
nodes of a resolved `frames` document, each child given by its `file` and
`line` attributes.  The `break` at line 287 discards the internal frame
and everything after it.  `none` models the `TypeError` thrown by
`this._sourceLines[...-1].trim()` when the line is out of range of the
cached source. -/
def translateFrames (sourceLines : List Str) : Nat → List (Str × Nat) → Option (List TFrame)
  | _, [] => some []
  | i, (f, ln) :: rest =>
    if internalScript (basename f) then some []
    else if ln = 0 then none
    else
      match sourceLines[ln - 1]? with
      | none => none
      | some s =>
        match translateFrames sourceLines (i + 1) rest with
        | none => none
        | some fs => some (⟨i, trim s, ln⟩ :: fs)

/-- Claim C6: a `frames` document whose children are, in order, frames for
files with base names `user.rb`, `user.rb`, `ruby-debug-ide.rb` yields
exactly the two frames for the first two children; iteration stops at the
internal file and it and everything after it is discarded. -/
theorem C6_stops_at_internal_frame (sl : List Str) (f1 f2 f3 : Str) (l1 l2 l3 : Nat)
    (hb1 : basename f1 = "user.rb".data) (hb2 : basename f2 = "user.rb".data)
    (hb3 : basename f3 = "ruby-debug-ide.rb".data)
    (h1 : 1 ≤ l1) (h1' : l1 ≤ sl.length) (h2 : 1 ≤ l2) (h2' : l2 ≤ sl.length) :
    translateFrames sl 0 [(f1, l1), (f2, l2), (f3, l3)] =
      some [⟨0, trim (sl.getD (l1 - 1) []), l1⟩, ⟨1, trim (sl.getD (l2 - 1) []), l2⟩] := by
  have e1 : sl[l1 - 1]? = some (sl.getD (l1 - 1) []) := by
    rw [List.getD_eq_getElem?_getD]
    cases hg : sl[l1 - 1]? with
    | none => rw [List.getElem?_eq_none_iff] at hg; omega
    | some s => rfl
  have e2 : sl[l2 - 1]? = some (sl.getD (l2 - 1) []) := by
    rw [List.getD_eq_getElem?_getD]
    cases hg : sl[l2 - 1]? with
    | none => rw [List.getElem?_eq_none_iff] at hg; omega
    | some s => rfl
  have n1 : ¬ l1 = 0 := by omega
  have n2 : ¬ l2 = 0 := by omega
  have hi1 : internalScript "user.rb".data = false := by decide
  have hi3 : internalScript "ruby-debug-ide.rb".data = true := by decide
  rw [translateFrames, hb1, hi1]
  rw [if_neg (by simp), if_neg n1, e1]
  rw [translateFrames, hb2, hi1]
  rw [if_neg (by simp), if_neg n2, e2]
  rw [translateFrames, hb3, hi3]
  rfl

/-- Witness for C6 on a concrete document and two cached source lines. -/
theorem C6_stops_at_internal_frame_witness :
    translateFrames ["x".data, "y".data] 0
        [("user.rb".data, 1), ("user.rb".data, 2), ("ruby-debug-ide.rb".data, 3)] =
      some [⟨0, trim ((["x".data, "y".data] : List Str).getD (1 - 1) []), 1⟩,
            ⟨1, trim ((["x".data, "y".data] : List Str).getD (2 - 1) []), 2⟩] :=
  C6_stops_at_internal_frame ["x".data, "y".data] "user.rb".data "user.rb".data
    "ruby-debug-ide.rb".data 1 2 3 (by decide) (by decide) (by decide)
    (by decide) (by decide) (by decide) (by decide)

/-!
## Request correlation (`stackTraceRequest` lines 269-271 and 307,
`variablesRequest` lines 325-327 and 349)

Each handler's effectful statements, in source order: create a fresh
promise and store its resolver (the registration of a waiter for the
document kind), then write the backend command to the socket.
-/

/-- The two backend document kinds a frontend request can wait for. -/
inductive DocKind where
  | frames
  | variables
deriving DecidableEq, Repr

/-- One effectful statement of a request handler. -/
inductive CorrStep where
  | register (k : DocKind)
  | write (cmd : Str)
deriving DecidableEq, Repr

/-- Which waiters are currently registered. -/
structure CorrState where
  waiting : DocKind → Bool

/-- Effect of one statement on the registered waiters: a registration
(re)installs the waiter for its kind; a socket write changes nothing. -/
def corrStep (s : CorrState) : CorrStep → CorrState
  | .register k => ⟨fun k' => if k' = k then true else s.waiting k'⟩
  | .write _ => s

def corrRun (s : CorrState) (steps : List CorrStep) : CorrState :=
  steps.foldl corrStep s

/-- `stackTraceRequest`: lines 269-271 re-register the frames waiter, then
line 307 writes `where`. -/
def stackTraceSteps : List CorrStep :=
  [.register .frames, .write "where\n".data]

/-- `variablesRequest`: lines 325-327 re-register the variables waiter,
then line 349 writes `var local`. -/
def variablesSteps : List CorrStep :=
  [.register .variables, .write "var local\n".data]

/-- The document kind a backend command solicits. -/
def cmdKind (cmd : Str) : Option DocKind :=
  if cmd = "where\n".data then some .frames
  else if cmd = "var local\n".data then some .variables
  else none

/-- Claim C7: in both the stack-trace and the variables handler, every
socket write of a soliciting command is preceded by the registration of
the waiter for that document kind: at the moment of the write, whatever
the waiter state was on entry, the waiter for the written command's kind
is registered. -/
theorem C7_register_before_write (s : CorrState) (pre post : List CorrStep)
    (cmd : Str) (k : DocKind)
    (hsteps : stackTraceSteps = pre ++ CorrStep.write cmd :: post ∨
              variablesSteps = pre ++ CorrStep.write cmd :: post)
    (hk : cmdKind cmd = some k) :
    (corrRun s pre).waiting k = true := by
  rcases hsteps with hs | hs
  · rcases pre with _ | ⟨a, _ | ⟨b, t⟩⟩
    · simp [stackTraceSteps] at hs
    · rw [stackTraceSteps] at hs
      simp only [List.cons_append, List.nil_append, List.cons.injEq,
        CorrStep.write.injEq] at hs
      obtain ⟨ha, hw, -⟩ := hs
      subst ha
      subst hw
      have hck : cmdKind "where\n".data = some DocKind.frames := by decide
      rw [hck] at hk
      injection hk with h
      subst h
      simp [corrRun, corrStep]
    · rw [stackTraceSteps] at hs
      simp only [List.cons_append, List.cons.injEq] at hs
      exact absurd hs.2.2 (by simp)
  · rcases pre with _ | ⟨a, _ | ⟨b, t⟩⟩
    · simp [variablesSteps] at hs
    · rw [variablesSteps] at hs
      simp only [List.cons_append, List.nil_append, List.cons.injEq,
        CorrStep.write.injEq] at hs
      obtain ⟨ha, hw, -⟩ := hs
      subst ha
      subst hw
      have hck : cmdKind "var local\n".data = some DocKind.variables := by decide
      rw [hck] at hk
      injection hk with h
      subst h
      simp [corrRun, corrStep]
    · rw [variablesSteps] at hs
      simp only [List.cons_append, List.cons.injEq] at hs
      exact absurd hs.2.2 (by simp)

/-- Witness for C7: the stack-trace handler's write of `where` happens with
the frames waiter registered, starting from a state with no waiters. -/
theorem C7_register_before_write_witness :
    (corrRun ⟨fun _ => false⟩ [CorrStep.register DocKind.frames]).waiting DocKind.frames = true :=
  C7_register_before_write ⟨fun _ => false⟩ [CorrStep.register DocKind.frames] []
    "where\n".data DocKind.frames (Or.inl rfl) rfl

/-- Claim C8: a set-breakpoints request replaces the stored collection for
its path with the newly built list (for an empty request, with the empty
list) and leaves every other path's stored collection unchanged. -/
theorem C8_replace_per_path (st : SessionState) (path q : Str) (fl : List Str)
    (cls : List Nat) (st' : SessionState) (tr : List SBEvent)
    (h : setBreakPointsRequest st path fl cls = some (st', tr)) :
    st'.breakPoints path = loopBps (bpLoop fl cls st.breakpointId) ∧
    (q ≠ path → st'.breakPoints q = st.breakPoints q) ∧
    (cls = [] → st'.breakPoints path = []) := by
  unfold setBreakPointsRequest at h
  cases e : bpLoop fl cls st.breakpointId with
  | none => rw [e] at h; exact absurd h (by simp)
  | some r =>
    obtain ⟨bps, id', cmds⟩ := r
    rw [e] at h
    simp only [Option.some.injEq, Prod.mk.injEq] at h
    obtain ⟨hst, -⟩ := h
    subst hst
    refine ⟨by simp [loopBps, e], fun hq => by simp [hq], fun hcls => ?_⟩
    subst hcls
    simp only [bpLoop, Option.some.injEq, Prod.mk.injEq] at e
    simp [e.1]

def c8St0 : SessionState := ⟨1000, fun _ => []⟩
def c8Bps : List Bp := [⟨1000, 1, true⟩]
def c8St1 : SessionState :=
  { breakpointId := 1001,
    breakPoints := fun q => if q = "a".data then c8Bps else c8St0.breakPoints q }
def c8Tr : List SBEvent := [SBEvent.write (breakCmd 1), SBEvent.respond c8Bps]

/-- Witness for C8 on a concrete request. -/
theorem C8_replace_per_path_witness :
    c8St1.breakPoints "a".data = loopBps (bpLoop ["x".data, "y".data] [1] c8St0.breakpointId) ∧
    ("b".data ≠ ("a".data : Str) → c8St1.breakPoints "b".data = c8St0.breakPoints "b".data) ∧
    ([1] = ([] : List Nat) → c8St1.breakPoints "a".data = []) :=
  C8_replace_per_path c8St0 "a".data "b".data ["x".data, "y".data] [1] c8St1 c8Tr rfl

/-- Claim C9: the adjusted line and verified flag of every processed
breakpoint are a pure function of the source lines and the requested
line: the loop's projection to `(line, verified)` equals the per-line
specification `bpSpec` (so each entry depends only on the file content
and its own requested line, not on the id counter, the position in the
request, or the other entries), and in particular re-running the request
at any other counter state yields identical adjusted lines and flags. -/
theorem C9_adjustment_pure : ∀ (fl : List Str) (cls : List Nat) (id : Nat),
    ((bpLoop fl cls id).map fun r => r.1.map lineVer) = bpSpec fl cls ∧
    ∀ id', ((bpLoop fl cls id).map fun r => r.1.map lineVer) =
           ((bpLoop fl cls id').map fun r => r.1.map lineVer) := by
  have key : ∀ (fl : List Str) (cls : List Nat) (id : Nat),
      ((bpLoop fl cls id).map fun r => r.1.map lineVer) = bpSpec fl cls := by
    intro fl cls
    induction cls with
    | nil => intro id; simp [bpLoop, bpSpec]
    | cons l rest ih =>
      intro id
      simp only [bpLoop, bpSpec]
      cases hp : processOne fl l with
      | none => simp
      | some p =>
        obtain ⟨al, v⟩ := p
        have hrest := ih (id + 1)
        cases hr : bpLoop fl rest (id + 1) with
        | none =>
          rw [hr] at hrest
          simp only [Option.map_none'] at hrest
          simp [← hrest]
        | some r =>
          obtain ⟨bps, id', cmds⟩ := r
          rw [hr] at hrest
          simp only [Option.map_some'] at hrest
          simp [← hrest, lineVer]
  exact fun fl cls id => ⟨key fl cls id, fun id' => by rw [key fl cls id, key fl cls id']⟩

/-!
## Reassembly under chunkings at element boundaries (claim C1)

A backend document with self-closed child elements is the concatenation
of its tokens: the root open tag, one token per child element, and the
root close tag.  A chunking at element boundaries groups consecutive
tokens into nonempty chunks.
-/

/-- `s` contains no ECMAScript LineTerminator (the character class the
handler's regex dots are sensitive to). -/
def noLT (s : Str) : Bool := s.all (fun c => !lineTerm c)

/-- A `<frame .../>` child element with attribute text `a`. -/
def frameTok (a : Str) : Str := framePre ++ a ++ ['/', '>']

/-- A `<variable .../>` child element with attribute text `a`. -/
def variableTok (a : Str) : Str := variablePre ++ a ++ ['/', '>']

/-- The token sequence of a complete `frames` document. -/
def framesDocTokens (attrs : List Str) : List Str :=
  framesOpen :: (attrs.map frameTok ++ [framesClose])

/-- The full text of a complete `frames` document. -/
def framesDocText (attrs : List Str) : Str := (framesDocTokens attrs).flatten

/-- The token sequence of a complete `variables` document. -/
def variablesDocTokens (attrs : List Str) : List Str :=
  variablesOpen :: (attrs.map variableTok ++ [variablesClose])

/-- The full text of a complete `variables` document. -/
def variablesDocText (attrs : List Str) : Str := (variablesDocTokens attrs).flatten

lemma startsTrue {p s : Str} (h : p <+: s) : startsWithS p s = true := by
  simpa [startsWithS] using h

lemma startsFalse {p s : Str} (h : ¬ p <+: s) : startsWithS p s = false := by
  cases hb : startsWithS p s
  · rfl
  · exact absurd (by simpa [startsWithS] using hb) h

lemma endsTrue {p s : Str} (h : p <:+ s) : endsWithS p s = true := by
  simpa [endsWithS] using h

lemma endsFalse {p s : Str} (h : ¬ p <:+ s) : endsWithS p s = false := by
  cases hb : endsWithS p s
  · rfl
  · exact absurd (by simpa [endsWithS] using hb) h

/-- Two incomparable literals cannot both be prefixes of the same string. -/
lemma startsIncompat (p q m : Str) (h1 : ¬ p <+: q) (h2 : ¬ q <+: p) :
    startsWithS p (q ++ m) = false := by
  refine startsFalse fun hp => ?_
  rcases List.prefix_or_prefix_of_prefix hp (List.prefix_append q m) with h | h
  exacts [h1 h, h2 h]

/-- Two incomparable literals cannot both be suffixes of the same string. -/
lemma endsIncompat (p q r : Str) (h1 : ¬ p <:+ q) (h2 : ¬ q <:+ p) :
    endsWithS p (r ++ q) = false := by
  refine endsFalse fun hp => ?_
  rcases List.suffix_or_suffix_of_suffix hp (List.suffix_append r q) with h | h
  exacts [h1 h, h2 h]

lemma noLT_append (s t : Str) : noLT (s ++ t) = (noLT s && noLT t) := by
  simp [noLT]

lemma noLT_sub {c m : Str} (h : List.Sublist m c) (hc : noLT c = true) : noLT m = true := by
  simp only [noLT, List.all_eq_true] at *
  exact fun x hx => hc x (h.subset hx)

lemma matchSelfClosed_false_start {pre c : Str} (h : startsWithS pre c = false) :
    matchSelfClosed pre c = false := by
  simp [matchSelfClosed, h]

lemma matchSelfClosed_false_ends {pre c : Str} (h : endsWithS ['/', '>'] c = false) :
    matchSelfClosed pre c = false := by
  simp [matchSelfClosed, h]

lemma matchOpenTag_false_start {pre c : Str} (h : startsWithS pre c = false) :
    matchOpenTag pre c = false := by
  simp [matchOpenTag, h]

lemma flatten_frameToks_ends (a : Str) (as : List Str) :
    ∃ r, ((a :: as).map frameTok).flatten = r ++ ['/', '>'] := by
  induction as generalizing a with
  | nil => exact ⟨framePre ++ a, by simp [frameTok]⟩
  | cons b bs ih =>
    obtain ⟨r, hr⟩ := ih b
    refine ⟨frameTok a ++ r, ?_⟩
    simp only [List.map_cons, List.flatten_cons] at hr ⊢
    rw [hr, List.append_assoc]

lemma flatten_variableToks_ends (a : Str) (as : List Str) :
    ∃ r, ((a :: as).map variableTok).flatten = r ++ ['/', '>'] := by
  induction as generalizing a with
  | nil => exact ⟨variablePre ++ a, by simp [variableTok]⟩
  | cons b bs ih =>
    obtain ⟨r, hr⟩ := ih b
    refine ⟨variableTok a ++ r, ?_⟩
    simp only [List.map_cons, List.flatten_cons] at hr ⊢
    rw [hr, List.append_assoc]

lemma noLT_frameToks (as : List Str) (ha : ∀ a ∈ as, noLT a = true) :
    noLT ((as.map frameTok).flatten) = true := by
  induction as with
  | nil => decide
  | cons a bs ih =>
    have h1 : noLT framePre = true := by decide
    have h2 : noLT ['/', '>'] = true := by decide
    have ha0 := ha a (List.mem_cons_self a bs)
    have hrest := ih fun x hx => ha x (List.mem_cons_of_mem a hx)
    rw [List.map_cons, List.flatten_cons, noLT_append, hrest, frameTok,
      noLT_append, noLT_append, h1, ha0, h2]
    rfl

lemma noLT_variableToks (as : List Str) (ha : ∀ a ∈ as, noLT a = true) :
    noLT ((as.map variableTok).flatten) = true := by
  induction as with
  | nil => decide
  | cons a bs ih =>
    have h1 : noLT variablePre = true := by decide
    have h2 : noLT ['/', '>'] = true := by decide
    have ha0 := ha a (List.mem_cons_self a bs)
    have hrest := ih fun x hx => ha x (List.mem_cons_of_mem a hx)
    rw [List.map_cons, List.flatten_cons, noLT_append, hrest, variableTok,
      noLT_append, noLT_append, h1, ha0, h2]
    rfl

lemma matchSelfClosed_frameToks (a : Str) (as : List Str)
    (ha : ∀ x ∈ a :: as, noLT x = true) :
    matchSelfClosed framePre (((a :: as).map frameTok).flatten) = true := by
  set c := ((a :: as).map frameTok).flatten with hc
  have hform : c = framePre ++ (a ++ (['/', '>'] ++ (as.map frameTok).flatten)) := by
    rw [hc]; simp [frameTok, List.append_assoc]
  have hstart : startsWithS framePre c = true := by
    rw [hform]; exact startsTrue (List.prefix_append _ _)
  have hends : endsWithS ['/', '>'] c = true := by
    obtain ⟨r, hr⟩ := flatten_frameToks_ends a as
    rw [hc, hr]; exact endsTrue (List.suffix_append r _)
  have hlen : framePre.length + 2 ≤ c.length := by
    rw [hform]
    simp only [List.length_append, List.length_cons, List.length_nil]
    omega
  have hnl : noLT c = true := by rw [hc]; exact noLT_frameToks (a :: as) ha
  have hmid : ((c.drop framePre.length).dropLast.dropLast.all (fun ch => !lineTerm ch)) = true := by
    have hsub : List.Sublist (c.drop framePre.length).dropLast.dropLast c :=
      ((List.dropLast_sublist _).trans (List.dropLast_sublist _)).trans (List.drop_sublist _ _)
    exact noLT_sub hsub hnl
  have hd : decide (framePre.length + 2 ≤ c.length) = true := decide_eq_true hlen
  simp [matchSelfClosed, hstart, hends, hd, hlen, hmid]

lemma matchSelfClosed_variableToks (a : Str) (as : List Str)
    (ha : ∀ x ∈ a :: as, noLT x = true) :
    matchSelfClosed variablePre (((a :: as).map variableTok).flatten) = true := by
  set c := ((a :: as).map variableTok).flatten with hc
  have hform : c = variablePre ++ (a ++ (['/', '>'] ++ (as.map variableTok).flatten)) := by
    rw [hc]; simp [variableTok, List.append_assoc]
  have hstart : startsWithS variablePre c = true := by
    rw [hform]; exact startsTrue (List.prefix_append _ _)
  have hends : endsWithS ['/', '>'] c = true := by
    obtain ⟨r, hr⟩ := flatten_variableToks_ends a as
    rw [hc, hr]; exact endsTrue (List.suffix_append r _)
  have hlen : variablePre.length + 2 ≤ c.length := by
    rw [hform]
    simp only [List.length_append, List.length_cons, List.length_nil]
    omega
  have hnl : noLT c = true := by rw [hc]; exact noLT_variableToks (a :: as) ha
  have hmid : ((c.drop variablePre.length).dropLast.dropLast.all (fun ch => !lineTerm ch)) = true := by
    have hsub : List.Sublist (c.drop variablePre.length).dropLast.dropLast c :=
      ((List.dropLast_sublist _).trans (List.dropLast_sublist _)).trans (List.drop_sublist _ _)
    exact noLT_sub hsub hnl
  have hd : decide (variablePre.length + 2 ≤ c.length) = true := decide_eq_true hlen
  simp [matchSelfClosed, hstart, hends, hd, hlen, hmid]

/-- The handler buffers a chunk when the first two event tests fail and
the third branch's condition holds. -/
lemma onData_buffers (st : ReState) (c : Str)
    (h1 : matchSelfClosed breakpointPre c = false)
    (h2 : matchSelfClosed suspendedPre c = false)
    (h3 : ((startsWithS framesOpen c && !endsWithS framesClose c)
       || (matchSelfClosed framePre c && !st.buffer.isEmpty)
       || (startsWithS variablesOpen c && !endsWithS variablesClose c)
       || (matchSelfClosed variablePre c && !st.buffer.isEmpty)
       || (startsWithS breakpointsOpen c && !endsWithS breakpointsClose c)
       || (matchSelfClosed breakpointPre c && !st.buffer.isEmpty)) = true) :
    onData st c = { st with buffer := st.buffer ++ c } := by
  simp only [onData]
  rw [if_neg (by simp [h1]), if_neg (by simp [h2]), if_pos h3]

/-- The handler completes a `frames` document on a chunk ending with the
root close tag when every earlier branch's condition fails. -/
lemma onData_completes_frames (st : ReState) (c : Str)
    (h1 : matchSelfClosed breakpointPre c = false)
    (h2 : matchSelfClosed suspendedPre c = false)
    (h3 : ((startsWithS framesOpen c && !endsWithS framesClose c)
       || (matchSelfClosed framePre c && !st.buffer.isEmpty)
       || (startsWithS variablesOpen c && !endsWithS variablesClose c)
       || (matchSelfClosed variablePre c && !st.buffer.isEmpty)
       || (startsWithS breakpointsOpen c && !endsWithS breakpointsClose c)
       || (matchSelfClosed breakpointPre c && !st.buffer.isEmpty)) = false)
    (h4 : ((matchOpenTag variablePre c && !endsWithS variablesClose c)
       || endsWithS variableCloseTag c) = false)
    (h5 : endsWithS framesClose c = true) :
    onData st c =
      { st with buffer := [], frameDocs := st.frameDocs ++ [st.buffer ++ c] } := by
  simp only [onData]
  rw [if_neg (by simp [h1]), if_neg (by simp [h2]), if_neg (by simp [h3]),
    if_neg (by simp [h4]), if_pos (by simp [h5]), if_pos h5]

/-- The handler completes a `variables` document on a chunk ending with
the root close tag when every earlier branch's condition fails. -/
lemma onData_completes_vars (st : ReState) (c : Str)
    (h1 : matchSelfClosed breakpointPre c = false)
    (h2 : matchSelfClosed suspendedPre c = false)
    (h3 : ((startsWithS framesOpen c && !endsWithS framesClose c)
       || (matchSelfClosed framePre c && !st.buffer.isEmpty)
       || (startsWithS variablesOpen c && !endsWithS variablesClose c)
       || (matchSelfClosed variablePre c && !st.buffer.isEmpty)
       || (startsWithS breakpointsOpen c && !endsWithS breakpointsClose c)
       || (matchSelfClosed breakpointPre c && !st.buffer.isEmpty)) = false)
    (h4 : ((matchOpenTag variablePre c && !endsWithS variablesClose c)
       || endsWithS variableCloseTag c) = false)
    (h5f : endsWithS framesClose c = false)
    (h5 : endsWithS variablesClose c = true) :
    onData st c =
      { st with buffer := [], varDocs := st.varDocs ++ [st.buffer ++ c] } := by
  simp only [onData]
  rw [if_neg (by simp [h1]), if_neg (by simp [h2]), if_neg (by simp [h3]),
    if_neg (by simp [h4]), if_pos (by simp [h5]), if_neg (by simp [h5f]), if_pos h5]

/-- The opening chunk of a fragmented `frames` document — the root open
tag followed by whole child elements, without the close tag — is
appended to the buffer. -/
lemma onData_frames_first (st : ReState) (as : List Str) :
    onData st (framesOpen ++ (as.map frameTok).flatten) =
      { st with buffer := st.buffer ++ (framesOpen ++ (as.map frameTok).flatten) } := by
  set c := framesOpen ++ (as.map frameTok).flatten with hc
  have hso : startsWithS framesOpen c = true := by
    rw [hc]; exact startsTrue (List.prefix_append _ _)
  have hse : endsWithS framesClose c = false := by
    cases as with
    | nil => rw [hc]; decide
    | cons a as1 =>
      obtain ⟨r, hr⟩ := flatten_frameToks_ends a as1
      rw [hc, hr, ← List.append_assoc]
      exact endsIncompat framesClose ['/', '>'] _ (by decide) (by decide)
  have h1 : matchSelfClosed breakpointPre c = false :=
    matchSelfClosed_false_start (by rw [hc]; exact startsIncompat _ _ _ (by decide) (by decide))
  have h2 : matchSelfClosed suspendedPre c = false :=
    matchSelfClosed_false_start (by rw [hc]; exact startsIncompat _ _ _ (by decide) (by decide))
  exact onData_buffers st c h1 h2 (by simp [hso, hse])

/-- The opening chunk of a fragmented `variables` document is appended to
the buffer. -/
lemma onData_vars_first (st : ReState) (as : List Str) :
    onData st (variablesOpen ++ (as.map variableTok).flatten) =
      { st with buffer := st.buffer ++ (variablesOpen ++ (as.map variableTok).flatten) } := by
  set c := variablesOpen ++ (as.map variableTok).flatten with hc
  have hso : startsWithS variablesOpen c = true := by
    rw [hc]; exact startsTrue (List.prefix_append _ _)
  have hse : endsWithS variablesClose c = false := by
    cases as with
    | nil => rw [hc]; decide
    | cons a as1 =>
      obtain ⟨r, hr⟩ := flatten_variableToks_ends a as1
      rw [hc, hr, ← List.append_assoc]
      exact endsIncompat variablesClose ['/', '>'] _ (by decide) (by decide)
  have h1 : matchSelfClosed breakpointPre c = false :=
    matchSelfClosed_false_start (by rw [hc]; exact startsIncompat _ _ _ (by decide) (by decide))
  have h2 : matchSelfClosed suspendedPre c = false :=
    matchSelfClosed_false_start (by rw [hc]; exact startsIncompat _ _ _ (by decide) (by decide))
  exact onData_buffers st c h1 h2 (by simp [hso, hse])

/-- A continuation chunk of a fragmented `frames` document — a nonempty
run of whole child elements — is appended to the (nonempty) buffer. -/
lemma onData_frames_mid (st : ReState) (a : Str) (as : List Str)
    (ha : ∀ x ∈ a :: as, noLT x = true) (hbuf : st.buffer ≠ []) :
    onData st (((a :: as).map frameTok).flatten) =
      { st with buffer := st.buffer ++ ((a :: as).map frameTok).flatten } := by
  set c := ((a :: as).map frameTok).flatten with hc
  have hform : c = framePre ++ (a ++ (['/', '>'] ++ (as.map frameTok).flatten)) := by
    rw [hc]; simp [frameTok, List.append_assoc]
  have hm : matchSelfClosed framePre c = true := by
    rw [hc]; exact matchSelfClosed_frameToks a as ha
  have h1 : matchSelfClosed breakpointPre c = false :=
    matchSelfClosed_false_start (by rw [hform]; exact startsIncompat _ _ _ (by decide) (by decide))
  have h2 : matchSelfClosed suspendedPre c = false :=
    matchSelfClosed_false_start (by rw [hform]; exact startsIncompat _ _ _ (by decide) (by decide))
  have hemp : st.buffer.isEmpty = false := by
    rw [List.isEmpty_eq_false]; exact hbuf
  exact onData_buffers st c h1 h2 (by simp [hm, hemp])

/-- A continuation chunk of a fragmented `variables` document is appended
to the (nonempty) buffer. -/
lemma onData_vars_mid (st : ReState) (a : Str) (as : List Str)
    (ha : ∀ x ∈ a :: as, noLT x = true) (hbuf : st.buffer ≠ []) :
    onData st (((a :: as).map variableTok).flatten) =
      { st with buffer := st.buffer ++ ((a :: as).map variableTok).flatten } := by
  set c := ((a :: as).map variableTok).flatten with hc
  have hform : c = variablePre ++ (a ++ (['/', '>'] ++ (as.map variableTok).flatten)) := by
    rw [hc]; simp [variableTok, List.append_assoc]
  have hm : matchSelfClosed variablePre c = true := by
    rw [hc]; exact matchSelfClosed_variableToks a as ha
  have h1 : matchSelfClosed breakpointPre c = false :=
    matchSelfClosed_false_start (by rw [hform]; exact startsIncompat _ _ _ (by decide) (by decide))
  have h2 : matchSelfClosed suspendedPre c = false :=
    matchSelfClosed_false_start (by rw [hform]; exact startsIncompat _ _ _ (by decide) (by decide))
  have hemp : st.buffer.isEmpty = false := by
    rw [List.isEmpty_eq_false]; exact hbuf
  exact onData_buffers st c h1 h2 (by simp [hm, hemp])

/-- A chunk ending with `</frames>` completes the buffered frames
document, provided it does not begin like a variables fragment. -/
lemma onData_frames_last (st : ReState) (r : Str)
    (hva : startsWithS variablePre (r ++ framesClose) = false)
    (hvo : startsWithS variablesOpen (r ++ framesClose) = false)
    (hbo : startsWithS breakpointsOpen (r ++ framesClose) = false) :
    onData st (r ++ framesClose) =
      { st with buffer := [],
                frameDocs := st.frameDocs ++ [st.buffer ++ (r ++ framesClose)] } := by
  set c := r ++ framesClose with hc
  have hsz : endsWithS ['/', '>'] c = false := by
    rw [hc]; exact endsIncompat _ _ _ (by decide) (by decide)
  have hfc : endsWithS framesClose c = true := by
    rw [hc]; exact endsTrue (List.suffix_append _ _)
  have hvc : endsWithS variablesClose c = false := by
    rw [hc]; exact endsIncompat _ _ _ (by decide) (by decide)
  have hbc : endsWithS breakpointsClose c = false := by
    rw [hc]; exact endsIncompat _ _ _ (by decide) (by decide)
  have hvcl : endsWithS variableCloseTag c = false := by
    rw [hc]; exact endsIncompat _ _ _ (by decide) (by decide)
  have h1 : matchSelfClosed breakpointPre c = false := matchSelfClosed_false_ends hsz
  have h2 : matchSelfClosed suspendedPre c = false := matchSelfClosed_false_ends hsz
  have hmf : matchSelfClosed framePre c = false := matchSelfClosed_false_ends hsz
  have hmv : matchSelfClosed variablePre c = false := matchSelfClosed_false_ends hsz
  have hov : matchOpenTag variablePre c = false := matchOpenTag_false_start hva
  exact onData_completes_frames st c h1 h2
    (by simp [hfc, hvc, hbc, hmf, hmv, hvo, hbo, h1])
    (by simp [hov, hvcl]) hfc

/-- A chunk ending with `</variables>` completes the buffered variables
document, provided it does not begin like a frames fragment. -/
lemma onData_vars_last (st : ReState) (r : Str)
    (hfo : startsWithS framesOpen (r ++ variablesClose) = false)
    (hbo : startsWithS breakpointsOpen (r ++ variablesClose) = false) :
    onData st (r ++ variablesClose) =
      { st with buffer := [],
                varDocs := st.varDocs ++ [st.buffer ++ (r ++ variablesClose)] } := by
  set c := r ++ variablesClose with hc
  have hsz : endsWithS ['/', '>'] c = false := by
    rw [hc]; exact endsIncompat _ _ _ (by decide) (by decide)
  have hvc : endsWithS variablesClose c = true := by
    rw [hc]; exact endsTrue (List.suffix_append _ _)
  have hfc : endsWithS framesClose c = false := by
    rw [hc]; exact endsIncompat _ _ _ (by decide) (by decide)
  have hbc : endsWithS breakpointsClose c = false := by
    rw [hc]; exact endsIncompat _ _ _ (by decide) (by decide)
  have hvcl : endsWithS variableCloseTag c = false := by
    rw [hc]; exact endsIncompat _ _ _ (by decide) (by decide)
  have h1 : matchSelfClosed breakpointPre c = false := matchSelfClosed_false_ends hsz
  have h2 : matchSelfClosed suspendedPre c = false := matchSelfClosed_false_ends hsz
  have hmf : matchSelfClosed framePre c = false := matchSelfClosed_false_ends hsz
  have hmv : matchSelfClosed variablePre c = false := matchSelfClosed_false_ends hsz
  exact onData_completes_vars st c h1 h2
    (by simp [hfc, hvc, hbc, hmf, hmv, hfo, hbo, h1])
    (by simp [hvc, hvcl]) hfc hvc

lemma flatten_ne_nil {gs : List (List Str)} (hg : ∀ g ∈ gs, g ≠ []) (hne : gs ≠ []) :
    gs.flatten ≠ [] := by
  cases gs with
  | nil => exact absurd rfl hne
  | cons g rest =>
    have hgne := hg g (List.mem_cons_self g rest)
    cases g with
    | nil => exact absurd rfl hgne
    | cons x xs => simp

lemma map_eq_append_split {α β : Type} (f : α → β) :
    ∀ (as : List α) (g t : List β), g ++ t = as.map f →
      ∃ as1 as2, as = as1 ++ as2 ∧ g = as1.map f ∧ t = as2.map f := by
  intro as g
  induction g generalizing as with
  | nil => exact fun t h => ⟨[], as, by simp, rfl, by simpa using h⟩
  | cons b g ih =>
    intro t h
    cases as with
    | nil => simp at h
    | cons a as1 =>
      simp only [List.map_cons, List.cons_append, List.cons.injEq] at h
      obtain ⟨hb, hrest⟩ := h
      obtain ⟨x1, x2, hx, hg1, ht⟩ := ih as1 t hrest
      exact ⟨a :: x1, x2, by simp [hx], by simp [hb, hg1], ht⟩

lemma append_split_left {α : Type} {g t u v : List α} (h : g ++ t = u ++ v)
    (hlen : g.length ≤ u.length) : ∃ w, u = g ++ w ∧ t = w ++ v := by
  rcases List.append_eq_append_iff.1 h with ⟨w, hw1, hw2⟩ | ⟨w, hw1, hw2⟩
  · exact ⟨w, hw1, hw2⟩
  · have hw0 : w = [] := by
      have hl := congrArg List.length hw1
      simp only [List.length_append] at hl
      have : w.length = 0 := by omega
      simpa [List.length_eq_zero] using this
    subst hw0
    refine ⟨[], ?_, ?_⟩
    · simpa using hw1.symm
    · simpa using hw2.symm

/-- Folding the handler over the remaining chunks of a fragmented
`frames` document: every chunk but the last is a run of whole child
elements and is buffered; the last chunk ends with the close tag and
completes the document with the whole accumulated text. -/
lemma foldFrames (gs : List (List Str)) : ∀ (as : List Str) (st : ReState),
    st.buffer ≠ [] →
    (∀ g ∈ gs, g ≠ []) →
    (∀ a ∈ as, noLT a = true) →
    gs.flatten = as.map frameTok ++ [framesClose] →
    List.foldl onData st (gs.map List.flatten) =
      { st with buffer := [],
                frameDocs := st.frameDocs ++
                  [st.buffer ++ ((as.map frameTok).flatten ++ framesClose)] } := by
  induction gs with
  | nil =>
    intro as st hbuf hg ha hflat
    exfalso
    have hl := congrArg List.length hflat
    simp only [List.flatten_nil, List.length_nil, List.length_append, List.length_map,
      List.length_cons] at hl
    omega
  | cons g gs ih =>
    intro as st hbuf hg ha hflat
    by_cases hgs : gs = []
    · subst hgs
      have hgeq : g = as.map frameTok ++ [framesClose] := by simpa using hflat
      have hch : g.flatten = (as.map frameTok).flatten ++ framesClose := by
        rw [hgeq]; simp
      simp only [List.map_cons, List.map_nil, List.foldl_cons, List.foldl_nil]
      rw [hch]
      have h3s : startsWithS variablePre ((as.map frameTok).flatten ++ framesClose) = false ∧
          startsWithS variablesOpen ((as.map frameTok).flatten ++ framesClose) = false ∧
          startsWithS breakpointsOpen ((as.map frameTok).flatten ++ framesClose) = false := by
        cases as with
        | nil => refine ⟨?_, ?_, ?_⟩ <;> decide
        | cons a as1 =>
          have hform : ((a :: as1).map frameTok).flatten ++ framesClose =
              framePre ++ ((a ++ (['/', '>'] ++ (as1.map frameTok).flatten)) ++ framesClose) := by
            simp [frameTok, List.append_assoc]
          rw [hform]
          exact ⟨startsIncompat _ _ _ (by decide) (by decide),
                 startsIncompat _ _ _ (by decide) (by decide),
                 startsIncompat _ _ _ (by decide) (by decide)⟩
      rw [onData_frames_last st _ h3s.1 h3s.2.1 h3s.2.2]
    · have hfl_ne : gs.flatten ≠ [] :=
        flatten_ne_nil (fun x hx => hg x (List.mem_cons_of_mem g hx)) hgs
      have happ : g ++ gs.flatten = as.map frameTok ++ [framesClose] := by
        simpa using hflat
      have hlen : g.length ≤ (as.map frameTok).length := by
        have h1 := congrArg List.length happ
        simp only [List.length_append, List.length_cons, List.length_nil] at h1
        have h2 : 1 ≤ gs.flatten.length := by
          cases hfe : gs.flatten with
          | nil => exact absurd hfe hfl_ne
          | cons x xs => simp
        omega
      obtain ⟨w, hw1, hw2⟩ := append_split_left happ hlen
      obtain ⟨as1, as2, has, hg1, hw_eq⟩ := map_eq_append_split frameTok as g w hw1.symm
      subst has
      have has1ne : as1 ≠ [] := by
        intro h0
        subst h0
        simp only [List.map_nil] at hg1
        exact (hg g (List.mem_cons_self g gs)) hg1
      cases as1 with
      | nil => exact absurd rfl has1ne
      | cons a1 as1 =>
        simp only [List.map_cons, List.foldl_cons]
        have hch : g.flatten = (((a1 :: as1).map frameTok)).flatten := by rw [hg1]
        rw [hch, onData_frames_mid st a1 as1
          (fun x hx => ha x (List.mem_append_left as2 hx)) hbuf]
        have hbuf2 : (st.buffer ++ ((a1 :: as1).map frameTok).flatten) ≠ [] := by
          intro h0
          exact hbuf (List.append_eq_nil.1 h0).1
        have hg2 : ∀ g1 ∈ gs, g1 ≠ [] := fun x hx => hg x (List.mem_cons_of_mem g hx)
        have ha2 : ∀ a ∈ as2, noLT a = true := fun x hx => ha x (List.mem_append_right _ hx)
        have hflat2 : gs.flatten = as2.map frameTok ++ [framesClose] := by
          rw [hw2, hw_eq]
        rw [ih as2 _ hbuf2 hg2 ha2 hflat2]
        simp [List.map_append, List.flatten_append, List.append_assoc]

/-- Folding the handler over the remaining chunks of a fragmented
`variables` document. -/
lemma foldVars (gs : List (List Str)) : ∀ (as : List Str) (st : ReState),
    st.buffer ≠ [] →
    (∀ g ∈ gs, g ≠ []) →
    (∀ a ∈ as, noLT a = true) →
    gs.flatten = as.map variableTok ++ [variablesClose] →
    List.foldl onData st (gs.map List.flatten) =
      { st with buffer := [],
                varDocs := st.varDocs ++
                  [st.buffer ++ ((as.map variableTok).flatten ++ variablesClose)] } := by
  induction gs with
  | nil =>
    intro as st hbuf hg ha hflat
    exfalso
    have hl := congrArg List.length hflat
    simp only [List.flatten_nil, List.length_nil, List.length_append, List.length_map,
      List.length_cons] at hl
    omega
  | cons g gs ih =>
    intro as st hbuf hg ha hflat
    by_cases hgs : gs = []
    · subst hgs
      have hgeq : g = as.map variableTok ++ [variablesClose] := by simpa using hflat
      have hch : g.flatten = (as.map variableTok).flatten ++ variablesClose := by
        rw [hgeq]; simp
      simp only [List.map_cons, List.map_nil, List.foldl_cons, List.foldl_nil]
      rw [hch]
      have h3s : startsWithS framesOpen ((as.map variableTok).flatten ++ variablesClose) = false ∧
          startsWithS breakpointsOpen ((as.map variableTok).flatten ++ variablesClose) = false := by
        cases as with
        | nil => refine ⟨?_, ?_⟩ <;> decide
        | cons a as1 =>
          have hform : ((a :: as1).map variableTok).flatten ++ variablesClose =
              variablePre ++ ((a ++ (['/', '>'] ++ (as1.map variableTok).flatten)) ++ variablesClose) := by
            simp [variableTok, List.append_assoc]
          rw [hform]
          exact ⟨startsIncompat _ _ _ (by decide) (by decide),
                 startsIncompat _ _ _ (by decide) (by decide)⟩
      rw [onData_vars_last st _ h3s.1 h3s.2]
    · have hfl_ne : gs.flatten ≠ [] :=
        flatten_ne_nil (fun x hx => hg x (List.mem_cons_of_mem g hx)) hgs
      have happ : g ++ gs.flatten = as.map variableTok ++ [variablesClose] := by
        simpa using hflat
      have hlen : g.length ≤ (as.map variableTok).length := by
        have h1 := congrArg List.length happ
        simp only [List.length_append, List.length_cons, List.length_nil] at h1
        have h2 : 1 ≤ gs.flatten.length := by
          cases hfe : gs.flatten with
          | nil => exact absurd hfe hfl_ne
          | cons x xs => simp
        omega
      obtain ⟨w, hw1, hw2⟩ := append_split_left happ hlen
      obtain ⟨as1, as2, has, hg1, hw_eq⟩ := map_eq_append_split variableTok as g w hw1.symm
      subst has
      have has1ne : as1 ≠ [] := by
        intro h0
        subst h0
        simp only [List.map_nil] at hg1
        exact (hg g (List.mem_cons_self g gs)) hg1
      cases as1 with
      | nil => exact absurd rfl has1ne
      | cons a1 as1 =>
        simp only [List.map_cons, List.foldl_cons]
        have hch : g.flatten = (((a1 :: as1).map variableTok)).flatten := by rw [hg1]
        rw [hch, onData_vars_mid st a1 as1
          (fun x hx => ha x (List.mem_append_left as2 hx)) hbuf]
        have hbuf2 : (st.buffer ++ ((a1 :: as1).map variableTok).flatten) ≠ [] := by
          intro h0
          exact hbuf (List.append_eq_nil.1 h0).1
        have hg2 : ∀ g1 ∈ gs, g1 ≠ [] := fun x hx => hg x (List.mem_cons_of_mem g hx)
        have ha2 : ∀ a ∈ as2, noLT a = true := fun x hx => ha x (List.mem_append_right _ hx)
        have hflat2 : gs.flatten = as2.map variableTok ++ [variablesClose] := by
          rw [hw2, hw_eq]
        rw [ih as2 _ hbuf2 hg2 ha2 hflat2]
        simp [List.map_append, List.flatten_append, List.append_assoc]

/-- Any grouping of a complete `frames` document's tokens into nonempty
chunks is reassembled into exactly one resolved frames document equal to
the unfragmented text, with no stray events or variable documents. -/
lemma consumeFrames (as : List Str) (groups : List (List Str))
    (ha : ∀ a ∈ as, noLT a = true)
    (hg : ∀ g ∈ groups, g ≠ [])
    (hflat : groups.flatten = framesDocTokens as) :
    consumeAll (groups.map List.flatten) =
      { buffer := [], frameDocs := [framesDocText as], varDocs := [],
        stoppedReasons := [] } := by
  cases groups with
  | nil =>
    exfalso
    have hl := congrArg List.length hflat
    simp only [List.flatten_nil, List.length_nil, framesDocTokens, List.length_cons] at hl
    omega
  | cons g0 gs =>
    have hg0ne : g0 ≠ [] := hg g0 (List.mem_cons_self _ _)
    cases g0 with
    | nil => exact absurd rfl hg0ne
    | cons t0 g0t =>
      have happ : t0 :: (g0t ++ gs.flatten) = framesOpen :: (as.map frameTok ++ [framesClose]) := by
        simpa [framesDocTokens] using hflat
      injection happ with ht0 hrest
      subst ht0
      by_cases hgs : gs = []
      · subst hgs
        have hg0 : g0t = as.map frameTok ++ [framesClose] := by simpa using hrest
        subst hg0
        simp only [consumeAll, List.map_cons, List.map_nil, List.foldl_cons, List.foldl_nil]
        have hform : (framesOpen :: (as.map frameTok ++ [framesClose])).flatten =
            (framesOpen ++ (as.map frameTok).flatten) ++ framesClose := by
          simp [List.append_assoc]
        rw [hform]
        have hs1 : startsWithS variablePre
            ((framesOpen ++ (as.map frameTok).flatten) ++ framesClose) = false := by
          rw [List.append_assoc]
          exact startsIncompat _ _ _ (by decide) (by decide)
        have hs2 : startsWithS variablesOpen
            ((framesOpen ++ (as.map frameTok).flatten) ++ framesClose) = false := by
          rw [List.append_assoc]
          exact startsIncompat _ _ _ (by decide) (by decide)
        have hs3 : startsWithS breakpointsOpen
            ((framesOpen ++ (as.map frameTok).flatten) ++ framesClose) = false := by
          rw [List.append_assoc]
          exact startsIncompat _ _ _ (by decide) (by decide)
        rw [onData_frames_last _ _ hs1 hs2 hs3]
        simp [framesDocText, framesDocTokens, List.append_assoc]
      · have hsplit : g0t ++ gs.flatten = as.map frameTok ++ [framesClose] := hrest
        have hfl_ne : gs.flatten ≠ [] :=
          flatten_ne_nil (fun x hx => hg x (List.mem_cons_of_mem _ hx)) hgs
        have hlen : g0t.length ≤ (as.map frameTok).length := by
          have h1 := congrArg List.length hsplit
          simp only [List.length_append, List.length_cons, List.length_nil] at h1
          have h2 : 1 ≤ gs.flatten.length := by
            cases hfe : gs.flatten with
            | nil => exact absurd hfe hfl_ne
            | cons x xs => simp
          omega
        obtain ⟨w, hw1, hw2⟩ := append_split_left hsplit hlen
        obtain ⟨as1, as2, has, hg1, hw_eq⟩ := map_eq_append_split frameTok as g0t w hw1.symm
        subst has
        simp only [consumeAll, List.map_cons, List.foldl_cons]
        have hch : (framesOpen :: g0t).flatten = framesOpen ++ (as1.map frameTok).flatten := by
          simp [hg1]
        rw [hch, onData_frames_first _ as1]
        have hbuf2 : (([] : Str) ++ (framesOpen ++ (as1.map frameTok).flatten)) ≠ [] := by
          have : framesOpen ≠ [] := by decide
          intro h0
          simp only [List.nil_append] at h0
          exact this (List.append_eq_nil.1 h0).1
        have hg2 : ∀ g1 ∈ gs, g1 ≠ [] := fun x hx => hg x (List.mem_cons_of_mem _ hx)
        have ha2 : ∀ a ∈ as2, noLT a = true := fun x hx => ha x (List.mem_append_right _ hx)
        have hflat2 : gs.flatten = as2.map frameTok ++ [framesClose] := by
          rw [hw2, hw_eq]
        rw [foldFrames gs as2 _ hbuf2 hg2 ha2 hflat2]
        simp [framesDocText, framesDocTokens, List.map_append, List.flatten_append,
          List.append_assoc]

/-- Any grouping of a complete `variables` document's tokens into
nonempty chunks is reassembled into exactly one resolved variables
document equal to the unfragmented text. -/
lemma consumeVars (as : List Str) (groups : List (List Str))
    (ha : ∀ a ∈ as, noLT a = true)
    (hg : ∀ g ∈ groups, g ≠ [])
    (hflat : groups.flatten = variablesDocTokens as) :
    consumeAll (groups.map List.flatten) =
      { buffer := [], frameDocs := [], varDocs := [variablesDocText as],
        stoppedReasons := [] } := by
  cases groups with
  | nil =>
    exfalso
    have hl := congrArg List.length hflat
    simp only [List.flatten_nil, List.length_nil, variablesDocTokens, List.length_cons] at hl
    omega
  | cons g0 gs =>
    have hg0ne : g0 ≠ [] := hg g0 (List.mem_cons_self _ _)
    cases g0 with
    | nil => exact absurd rfl hg0ne
    | cons t0 g0t =>
      have happ : t0 :: (g0t ++ gs.flatten) =
          variablesOpen :: (as.map variableTok ++ [variablesClose]) := by
        simpa [variablesDocTokens] using hflat
      injection happ with ht0 hrest
      subst ht0
      by_cases hgs : gs = []
      · subst hgs
        have hg0 : g0t = as.map variableTok ++ [variablesClose] := by simpa using hrest
        subst hg0
        simp only [consumeAll, List.map_cons, List.map_nil, List.foldl_cons, List.foldl_nil]
        have hform : (variablesOpen :: (as.map variableTok ++ [variablesClose])).flatten =
            (variablesOpen ++ (as.map variableTok).flatten) ++ variablesClose := by
          simp [List.append_assoc]
        rw [hform]
        have hs1 : startsWithS framesOpen
            ((variablesOpen ++ (as.map variableTok).flatten) ++ variablesClose) = false := by
          rw [List.append_assoc]
          exact startsIncompat _ _ _ (by decide) (by decide)
        have hs2 : startsWithS breakpointsOpen
            ((variablesOpen ++ (as.map variableTok).flatten) ++ variablesClose) = false := by
          rw [List.append_assoc]
          exact startsIncompat _ _ _ (by decide) (by decide)
        rw [onData_vars_last _ _ hs1 hs2]
        simp [variablesDocText, variablesDocTokens, List.append_assoc]
      · have hsplit : g0t ++ gs.flatten = as.map variableTok ++ [variablesClose] := hrest
        have hfl_ne : gs.flatten ≠ [] :=
          flatten_ne_nil (fun x hx => hg x (List.mem_cons_of_mem _ hx)) hgs
        have hlen : g0t.length ≤ (as.map variableTok).length := by
          have h1 := congrArg List.length hsplit
          simp only [List.length_append, List.length_cons, List.length_nil] at h1
          have h2 : 1 ≤ gs.flatten.length := by
            cases hfe : gs.flatten with
            | nil => exact absurd hfe hfl_ne
            | cons x xs => simp
          omega
        obtain ⟨w, hw1, hw2⟩ := append_split_left hsplit hlen
        obtain ⟨as1, as2, has, hg1, hw_eq⟩ := map_eq_append_split variableTok as g0t w hw1.symm
        subst has
        simp only [consumeAll, List.map_cons, List.foldl_cons]
        have hch : (variablesOpen :: g0t).flatten =
            variablesOpen ++ (as1.map variableTok).flatten := by
          simp [hg1]
        rw [hch, onData_vars_first _ as1]
        have hbuf2 : (([] : Str) ++ (variablesOpen ++ (as1.map variableTok).flatten)) ≠ [] := by
          have : variablesOpen ≠ [] := by decide
          intro h0
          simp only [List.nil_append] at h0
          exact this (List.append_eq_nil.1 h0).1
        have hg2 : ∀ g1 ∈ gs, g1 ≠ [] := fun x hx => hg x (List.mem_cons_of_mem _ hx)
        have ha2 : ∀ a ∈ as2, noLT a = true := fun x hx => ha x (List.mem_append_right _ hx)
        have hflat2 : gs.flatten = as2.map variableTok ++ [variablesClose] := by
          rw [hw2, hw_eq]
        rw [foldVars gs as2 _ hbuf2 hg2 ha2 hflat2]
        simp [variablesDocText, variablesDocTokens, List.map_append, List.flatten_append,
          List.append_assoc]

/-- Claim C1, amended: for every complete `frames` or `variables` document
made of a root open tag, self-closed line-terminator-free child elements and the
root close tag, and for every chunking of the document AT ELEMENT
BOUNDARIES (each chunk a nonempty run of consecutive whole tokens),
feeding the chunks in order to the socket-data handler resolves the
corresponding promise exactly once, with text equal to the unfragmented
document, and raises no stray event.  (For arbitrary split points the
claim is false: see the counterexample, where a split inside the close
tag loses the document.) -/
theorem C1_element_boundary_reassembly :
    (∀ (as : List Str) (groups : List (List Str)),
        (∀ a ∈ as, noLT a = true) →
        (∀ g ∈ groups, g ≠ []) →
        groups.flatten = framesDocTokens as →
        consumeAll (groups.map List.flatten) =
          { buffer := [], frameDocs := [framesDocText as], varDocs := [],
            stoppedReasons := [] }) ∧
    (∀ (as : List Str) (groups : List (List Str)),
        (∀ a ∈ as, noLT a = true) →
        (∀ g ∈ groups, g ≠ []) →
        groups.flatten = variablesDocTokens as →
        consumeAll (groups.map List.flatten) =
          { buffer := [], frameDocs := [], varDocs := [variablesDocText as],
            stoppedReasons := [] }) :=
  ⟨consumeFrames, consumeVars⟩

/-- Witness for the amended C1: `<frames><frame a/></frames>` split into
its three tokens is reassembled into exactly one frames document. -/
theorem C1_element_boundary_reassembly_witness :
    consumeAll ([[framesOpen], [frameTok "a".data], [framesClose]].map List.flatten) =
      { buffer := [], frameDocs := [framesDocText ["a".data]], varDocs := [],
        stoppedReasons := [] } :=
  C1_element_boundary_reassembly.1 ["a".data]
    [[framesOpen], [frameTok "a".data], [framesClose]]
    (by decide) (by decide) (by decide)

end RubyAdapter
